import Mathlib

set_option maxRecDepth 8000

attribute [local semireducible] Rat.add Rat.mul Rat.inv Rat.sub Rat.ofScientific

/-!
Verification development for the reshape engine of
`Cleaning_Air_Data/format_by_location.py`.

The script manipulates pandas DataFrames.  We embed the fragment the
properties talk about: a `Table` is a column schema together with a list of
rows; cell values are missing (`NaN`/`NaT`), numbers (rationals), strings, or
calendar dates.  Library calls of pandas that the script uses
(`pd.to_numeric(·, errors="coerce")`, `pd.to_datetime(·, errors="coerce").dt.date`,
`Series.round(3)`, `DataFrame.groupby`, `DataFrame.pivot_table`) are modelled
by explicit functions below; each carries a comment stating the modelled
behaviour.
-/

/-- A cell value: missing (pandas `NaN`/`NaT`), a number (modelled as a
rational), a string, or a calendar date (modelled by its normalized string
representation, since only identity and distinctness of dates matter here). -/
inductive Value : Type
  | na : Value
  | num : ℚ → Value
  | str : String → Value
  | date : String → Value
deriving DecidableEq

/-- Numeric view of a cell: only genuinely numeric cells participate in
aggregation. -/
def asNum? : Value → Option ℚ
  | .num q => some q
  | _ => none

/-- Python `str(·)` on a cell, used only for sheet-name serialization. -/
def pyStr : Value → String
  | .na => "nan"
  | .num q => toString q
  | .str s => s
  | .date s => s

/-- Value of a decimal digit character, if it is one. -/
def digitVal? (c : Char) : Option ℕ :=
  if '0' ≤ c ∧ c ≤ '9' then some (c.toNat - '0'.toNat) else none

/-- Accumulating parser for a nonempty run of digits. -/
def parseDigitsAux : List Char → ℕ → Option ℕ
  | [], acc => some acc
  | c :: cs, acc =>
      match digitVal? c with
      | some d => parseDigitsAux cs (acc * 10 + d)
      | none => none

/-- Parse a nonempty all-digit character list as a natural number. -/
def parseDigits? : List Char → Option ℕ
  | [] => none
  | cs => parseDigitsAux cs 0

/-- Parse an unsigned decimal literal (`"12"`, `"12.75"`). -/
def parseUnsignedDec? (s : String) : Option ℚ :=
  match s.splitOn "." with
  | [i] => (parseDigits? i.data).map (fun n => (n : ℚ))
  | [i, f] =>
      match parseDigits? i.data, parseDigits? f.data with
      | some n, some m => some ((n : ℚ) + (m : ℚ) / ((10 : ℚ) ^ f.length))
      | _, _ => none
  | _ => none

/-- Parse an optionally signed decimal literal. -/
def parseDecimal? (s : String) : Option ℚ :=
  match s.trim.data with
  | '-' :: rest => (parseUnsignedDec? ⟨rest⟩).map (fun q => -q)
  | '+' :: rest => parseUnsignedDec? ⟨rest⟩
  | _ => parseUnsignedDec? s.trim

/-- Models `pd.to_numeric(cell, errors="coerce")`: numbers pass through,
numeric text is parsed (modelled for plain decimal literals), everything else
degrades to missing — never to `0`. -/
def to_numeric : Value → Value
  | .na => .na
  | .num q => .num q
  | .str s =>
      match parseDecimal? s with
      | some q => .num q
      | none => .na
  | .date _ => .na

/-- Round to the nearest integer, half up — the executable form of Mathlib's
`round` (`round_eq : round x = ⌊x + 1 / 2⌋`).  numpy's `round` breaks ties to
even instead; exact half-thousandth ties are not exercised by any property
below. -/
def roundQ (q : ℚ) : ℤ := Rat.floor (q + 1 / 2)

/-- Rounding to three decimals. -/
def roundQ3 (q : ℚ) : ℚ := (roundQ (q * 1000) : ℚ) / 1000

/-- Models `Series.round(3)` on one cell. -/
def round3 : Value → Value
  | .num q => .num (roundQ3 q)
  | v => v

/-- Recognize an ISO `YYYY-MM-DD` literal with a plausible month and day.
This models the date formats the script's data actually uses; pandas accepts
more formats, all irrelevant to the properties below. -/
def parseYMD? (s : String) : Option String :=
  match s.data with
  | [y1, y2, y3, y4, '-', m1, m2, '-', d1, d2] =>
      match digitVal? y1, digitVal? y2, digitVal? y3, digitVal? y4,
            digitVal? m1, digitVal? m2, digitVal? d1, digitVal? d2 with
      | some _, some _, some _, some _, some a, some b, some c, some d =>
          let mo := a * 10 + b
          let da := c * 10 + d
          if 1 ≤ mo ∧ mo ≤ 12 ∧ 1 ≤ da ∧ da ≤ 31 then some s else none
      | _, _, _, _, _, _, _, _ => none
  | _ => none

/-- Models `pd.to_datetime(cell, errors="coerce").dt.date` on one cell:
dates pass through, parseable text becomes a date, unparseable text becomes
missing; a numeric cell is an epoch timestamp, modelled opaquely (distinct
numbers give distinct dates). -/
def to_date : Value → Value
  | .na => .na
  | .date s => .date s
  | .num q => .date ("epoch " ++ toString q)
  | .str s =>
      match parseYMD? s with
      | some d => .date d
      | none => .na

/-- A DataFrame: a column schema and rows of cells (cell `i` of a row belongs
to column `i`; a cell read beyond a row's length is missing). -/
structure Table : Type where
  cols : List String
  rows : List (List Value)
deriving DecidableEq

/-- First index of a label in a schema (the semantics of positional lookup
by column label; pandas column access with duplicate labels behaves
differently, a corner no property below reaches). -/
def colIdxAux : List String → String → Option ℕ
  | [], _ => none
  | c' :: cs, c => if c' = c then some 0 else (colIdxAux cs c).map (· + 1)

/-- Index of a column label in the schema. -/
def colIdx? (t : Table) (c : String) : Option ℕ := colIdxAux t.cols c

/-- Read cell `c` of row `r` of table `t`. -/
def getCellRow (t : Table) (r : List Value) (c : String) : Value :=
  match colIdx? t c with
  | some i => r.getD i .na
  | none => .na

/-- Models column assignment `df[c] = f(row)`: overwrite the column if it
exists, else append it on the right (as pandas does). -/
def setColumnWith (t : Table) (c : String) (f : List Value → Value) : Table :=
  match colIdx? t c with
  | some i => ⟨t.cols, t.rows.map (fun r => r.set i (f r))⟩
  | none => ⟨t.cols ++ [c], t.rows.map (fun r => r ++ [f r])⟩

/-- Models `df[cs]`: project onto the listed columns, in that order. -/
def selectCols (t : Table) (cs : List String) : Table :=
  ⟨cs, t.rows.map (fun r => cs.map (fun c => getCellRow t r c))⟩

/-- `coalesce` from the source: first candidate column name present in the
schema, `None` when nothing matches. -/
def coalesce (t : Table) (cands : List String) : Option String :=
  cands.find? (fun c => t.cols.contains c)

/-- Replace every occurrence of character `a` by `b` (Python
`str.replace(a, b)` for single characters). -/
def pyReplaceChar (a b : Char) (s : List Char) : List Char :=
  s.map (fun c => if c = a then b else c)

/-- `safe_sheet_name` from the source: the chained single-character
`str.replace` calls followed by the 31-character truncation; empty input
falls back to `"Sheet1"` (a `None` argument takes the same falsy branch in
Python). -/
def safe_sheet_name (s : String) : String :=
  if s.isEmpty then "Sheet1"
  else
    let l :=
      pyReplaceChar ']' ')'
        (pyReplaceChar '[' '('
          (pyReplaceChar '?' '-'
            (pyReplaceChar '*' '-'
              (pyReplaceChar '\\' '-'
                (pyReplaceChar ':' '-'
                  (pyReplaceChar '/' '-' s.data))))))
    if l.length > 31 then ⟨l.take 31⟩ else ⟨l⟩

/-- The character substitution exactly as the specification words it:
`/`, `:`, `\` and `*`, `?` go to `-`; `[` to `(`; `]` to `)`. -/
def sheetCharSpec (c : Char) : Char :=
  if c = '/' ∨ c = ':' ∨ c = '\\' then '-'
  else if c = '*' ∨ c = '?' then '-'
  else if c = '[' then '('
  else if c = ']' then ')'
  else c

/-- The sanitizer as the specification describes it: one simultaneous
character substitution, then truncation to the first 31 characters when
longer, with `"Sheet1"` for empty input. -/
def safe_sheet_name_spec (s : String) : String :=
  if s.isEmpty then "Sheet1"
  else
    let l := s.data.map sheetCharSpec
    if l.length > 31 then ⟨l.take 31⟩ else ⟨l⟩

theorem sheet_chain_eq_spec (l : List Char) :
    pyReplaceChar ']' ')'
      (pyReplaceChar '[' '('
        (pyReplaceChar '?' '-'
          (pyReplaceChar '*' '-'
            (pyReplaceChar '\\' '-'
              (pyReplaceChar ':' '-'
                (pyReplaceChar '/' '-' l)))))) = l.map sheetCharSpec := by
  simp only [pyReplaceChar, List.map_map]
  apply List.map_congr_left
  intro c _
  by_cases h1 : c = '/'
  · subst h1; decide
  by_cases h2 : c = ':'
  · subst h2; decide
  by_cases h3 : c = '\\'
  · subst h3; decide
  by_cases h4 : c = '*'
  · subst h4; decide
  by_cases h5 : c = '?'
  · subst h5; decide
  by_cases h6 : c = '['
  · subst h6; decide
  by_cases h7 : c = ']'
  · subst h7; decide
  simp [Function.comp, sheetCharSpec, h1, h2, h3, h4, h5, h6, h7]

/-- C2: the sheet-name sanitizer replaces each `/`, `:`, `\`, `*`, `?` by
`-`, each `[` by `(`, each `]` by `)`, truncates anything longer than 31
characters to exactly its first 31 characters, and maps empty (falsy, hence
also `None`) input to the fallback `"Sheet1"` — i.e. it coincides with the
specification's sanitizer on every input. -/
theorem c2_safe_sheet_name_matches_spec :
    ∀ s : String, safe_sheet_name s = safe_sheet_name_spec s := by
  intro s
  unfold safe_sheet_name safe_sheet_name_spec
  by_cases h : s.isEmpty
  · simp [h]
  · simp only [h, if_false, sheet_chain_eq_spec]

/-- Group key of a row under grouping columns `gcs`, or `none` when any key
component is missing — pandas `groupby` (its default `dropna=True`) drops
such rows. -/
def rowKey? (t : Table) (gcs : List String) (r : List Value) : Option (List Value) :=
  let k := gcs.map (getCellRow t r)
  if Value.na ∈ k then none else some k

/-- Models `df.groupby(gcs)` as used at the export sites: the list of
(group key, sub-table) pairs.  Keys are listed in first-occurrence order;
pandas sorts them, which affects only presentation order and no property
below. -/
def groupSplit (t : Table) (gcs : List String) : List (List Value × Table) :=
  let keys := (t.rows.filterMap (rowKey? t gcs)).dedup
  keys.map (fun k =>
    (k, ⟨t.cols, t.rows.filter (fun r => decide (rowKey? t gcs r = some k))⟩))

/-- Sheet-name serialization of a group key, as at the export sites:
`"-".join(str(k) for k in keys if pd.notna(k))`. -/
def sheetJoin (k : List Value) : String :=
  "-".intercalate ((k.filter (fun v => decide (v ≠ Value.na))).map pyStr)

/-- The per-group sheet split of the export sites: one `(sheet name, table)`
entry per group when grouping columns are given, a single `"All"` sheet with
the whole table otherwise. -/
def partition (t : Table) (gcs : List String) : List (String × Table) :=
  if gcs.isEmpty then [("All", t)]
  else
    (groupSplit t gcs).map (fun e =>
      (safe_sheet_name (if sheetJoin e.1 = "" then "Sheet1" else sheetJoin e.1), e.2))

theorem sum_map_add {α : Type} (K : List α) (f g : α → ℕ) :
    (K.map (fun k => f k + g k)).sum = (K.map f).sum + (K.map g).sum := by
  induction K with
  | nil => simp
  | cons k ks ih => simp only [List.map_cons, List.sum_cons, ih]; omega

theorem sum_ite_of_not_mem {κ : Type} [DecidableEq κ] (K : List κ) (k₀ : κ)
    (hm : k₀ ∉ K) :
    (K.map (fun k => if k₀ = k then 1 else 0)).sum = 0 := by
  induction K with
  | nil => simp
  | cons k ks ih =>
      have h1 : k₀ ≠ k := fun h => hm (h ▸ List.mem_cons_self k ks)
      have h2 : k₀ ∉ ks := fun h => hm (List.mem_cons_of_mem _ h)
      simp [h1, ih h2]

theorem sum_ite_of_nodup {κ : Type} [DecidableEq κ] (K : List κ) (k₀ : κ)
    (hn : K.Nodup) (hm : k₀ ∈ K) :
    (K.map (fun k => if k₀ = k then 1 else 0)).sum = 1 := by
  induction K with
  | nil => cases hm
  | cons k ks ih =>
      rcases List.mem_cons.mp hm with h | h
      · subst h
        have : k₀ ∉ ks := (List.nodup_cons.mp hn).1
        simp [sum_ite_of_not_mem ks k₀ this]
      · have hne : k₀ ≠ k := by
          intro he; subst he; exact (List.nodup_cons.mp hn).1 h
        simp [hne, ih (List.nodup_cons.mp hn).2 h]

theorem sum_filter_lengths {κ ρ : Type} [DecidableEq κ] (f : ρ → Option κ) :
    ∀ (rs : List ρ) (K : List κ), K.Nodup →
      (∀ r ∈ rs, ∀ k, f r = some k → k ∈ K) →
      (K.map (fun k => (rs.filter (fun r => decide (f r = some k))).length)).sum
        = (rs.filter (fun r => (f r).isSome)).length := by
  intro rs
  induction rs with
  | nil => intro K _ _; simp
  | cons r rest ih =>
      intro K hK hcov
      have hrest := ih K hK (fun x hx => hcov x (List.mem_cons_of_mem _ hx))
      rcases hf : f r with _ | k₀
      · have hmap : ∀ k ∈ K,
            ((r :: rest).filter (fun x => decide (f x = some k))).length
              = (rest.filter (fun x => decide (f x = some k))).length := by
          intro k _
          simp [List.filter_cons, hf]
        rw [List.map_congr_left hmap, hrest, List.filter_cons]
        simp [hf]
      · have hk₀ : k₀ ∈ K := hcov r (List.mem_cons_self _ _) k₀ hf
        have hmap : ∀ k ∈ K,
            ((r :: rest).filter (fun x => decide (f x = some k))).length
              = (if k₀ = k then 1 else 0)
                + (rest.filter (fun x => decide (f x = some k))).length := by
          intro k _
          by_cases h : k₀ = k
          · subst h; simp [List.filter_cons, hf]; omega
          · have : ¬ (some k₀ = some k) := fun he => h (Option.some.inj he)
            simp [List.filter_cons, hf, this, h]
        rw [List.map_congr_left hmap, sum_map_add,
            sum_ite_of_nodup K k₀ hK hk₀, hrest, List.filter_cons]
        simp [hf]
        omega

/-- C1 (amended): the row counts of the per-group sheet split sum to the
number of rows whose grouping-key components are all non-missing (pandas
`groupby` drops rows with a missing key component, so rows of `T` with a
missing grouping value appear in no sub-table); with no grouping columns the
result is the single table keyed `"All"`, equal to `T`. -/
theorem c1_partition_counts (t : Table) (gcs : List String) :
    ((partition t gcs).map (fun e => e.2.rows.length)).sum
        = (t.rows.filter (fun r => (rowKey? t gcs r).isSome)).length
    ∧ (gcs = [] → partition t gcs = [("All", t)]) := by
  constructor
  · rcases gcs with _ | ⟨g, gs⟩
    · simp [partition, rowKey?]
    · have := sum_filter_lengths (rowKey? t (g :: gs)) t.rows
        ((t.rows.filterMap (rowKey? t (g :: gs))).dedup)
        (List.nodup_dedup _)
        (by
          intro r hr k hk
          exact List.mem_dedup.mpr (List.mem_filterMap.mpr ⟨r, hr, hk⟩))
      rw [← this]
      simp only [partition, List.isEmpty_cons, Bool.false_eq_true, if_false,
        groupSplit, List.map_map]
      exact congrArg List.sum (List.map_congr_left (fun k _ => rfl))
  · intro hg
    subst hg
    simp [partition]

/-- C1 (claim as stated, counterexample): a one-row table whose only
grouping value is missing; the partition's row counts sum to `0`, not to
`len(T) = 1` — the row is dropped from every sub-table. -/
def exC1 : Table := ⟨["State"], [[Value.na]]⟩

theorem c1_claim_counterexample :
    ((partition exC1 ["State"]).map (fun e => e.2.rows.length)).sum = 0
    ∧ exC1.rows.length = 1 := by decide

theorem c1_partition_counts_witness :
    ((partition (⟨["State"], [[Value.str "Md"], [Value.str "Ia"]]⟩ : Table) []).map
        (fun e => e.2.rows.length)).sum = 2
    ∧ partition (⟨["State"], [[Value.str "Md"], [Value.str "Ia"]]⟩ : Table) []
        = [("All", ⟨["State"], [[Value.str "Md"], [Value.str "Ia"]]⟩)] := by
  have h := c1_partition_counts (⟨["State"], [[Value.str "Md"], [Value.str "Ia"]]⟩ : Table) []
  exact ⟨by rw [h.1]; decide, h.2 rfl⟩

/-- C4 (amended): groups match on exact key equality — every row of the
sub-table for key `k` has exactly the key `k` — and a row with a missing
value in any grouping column is excluded from every sub-table (dropped by
pandas `groupby`), never merged into another group. -/
theorem c4_missing_key_never_merged (t : Table) (gcs : List String) :
    (∀ e ∈ groupSplit t gcs, ∀ r ∈ e.2.rows, rowKey? t gcs r = some e.1)
    ∧ (∀ r, rowKey? t gcs r = none → ∀ e ∈ groupSplit t gcs, r ∉ e.2.rows) := by
  have hmem : ∀ e ∈ groupSplit t gcs, ∀ r ∈ e.2.rows, rowKey? t gcs r = some e.1 := by
    intro e he r hr
    simp only [groupSplit, List.mem_map] at he
    obtain ⟨k, _, hk⟩ := he
    subst hk
    simp only [List.mem_filter] at hr
    exact of_decide_eq_true hr.2
  refine ⟨hmem, ?_⟩
  intro r hnone e he hr
  have := hmem e he r hr
  rw [hnone] at this
  cases this

/-- C4 (claim as stated, counterexample): a table with one `"Md"` row and one
row whose grouping value is missing.  The split has exactly one group — the
`"Md"` group with one row — so the missing-valued row does not form a group
key of its own: it is silently dropped. -/
def exT4 : Table := ⟨["State"], [[Value.str "Md"], [Value.na]]⟩

theorem c4_claim_counterexample :
    groupSplit exT4 ["State"]
        = [([Value.str "Md"], ⟨["State"], [[Value.str "Md"]]⟩)]
    ∧ [Value.na] ∈ exT4.rows := by decide

theorem c4_missing_key_never_merged_witness :
    rowKey? exT4 ["State"] [Value.str "Md"] = some [Value.str "Md"] := by
  have h := (c4_missing_key_never_merged exT4 ["State"]).1
  exact h ([Value.str "Md"], (⟨["State"], [[Value.str "Md"]]⟩ : Table))
    (by decide) [Value.str "Md"] (by decide)

/-- The alphabet string `abc` of `label_style_map`. -/
def abcLetters : String := "ABCDEFGHIJKLMNOPQRSTUVWXYZ"

/-- The letter label built for the pollutant at position `i` of the sorted
list. -/
def mkAbcLabel (i : ℕ) (p : String) : String :=
  "Pollutant ".push (abcLetters.data.getD i 'A') ++ " (" ++ p ++ ")"

/-- The loop body of `label_style_map` over `enumerate(sorted(pollutants))`:
builds the rename mapping in iteration order; `abc[i]` raises `IndexError`
past the 26 letters, modelled as `none` (and `abc[i]` is only evaluated when
`use_abc` holds, as in the Python conditional expression). -/
def buildLabels : List (ℕ × String) → Bool → Option (List (String × String))
  | [], _ => some []
  | (i, p) :: rest, b =>
      (if b then (abcLetters.data[i]?).map
          (fun ch => "Pollutant ".push ch ++ " (" ++ p ++ ")") else some p).bind
        (fun lab => (buildLabels rest b).map (fun ms => (p, lab) :: ms))

/-- `label_style_map` from the source: sort the pollutant names, then assign
either `"Pollutant <letter> (<name>)"` or the raw name.  The Python dict
(whose keys are the distinct names, in insertion order) is modelled as an
association list; the properties below only concern duplicate-free inputs,
where the two agree. -/
def label_style_map (pollutants : List String) (use_abc : Bool) :
    Option (List (String × String)) :=
  buildLabels (List.insertionSort (fun a b => a ≤ b) pollutants).enum use_abc

/-- Mapping a function of the entry over an enumeration. -/
theorem enum_map_snd_fun {α β : Type} (l : List α) (f : α → β) :
    l.enum.map (fun ip => f ip.2) = l.map f := by
  have h : l.enum.map (fun ip => f ip.2) = (l.enum.map Prod.snd).map f := by
    rw [List.map_map]; rfl
  rw [h, List.enum_map_snd]

theorem buildLabels_false (l : List (ℕ × String)) :
    buildLabels l false = some (l.map (fun ip => (ip.2, ip.2))) := by
  induction l with
  | nil => rfl
  | cons ip rest ih => obtain ⟨i, p⟩ := ip; simp [buildLabels, ih]

theorem buildLabels_abc (l : List (ℕ × String)) (h : ∀ ip ∈ l, ip.1 < 26) :
    buildLabels l true = some (l.map (fun ip => (ip.2, mkAbcLabel ip.1 ip.2))) := by
  induction l with
  | nil => rfl
  | cons ip rest ih =>
      obtain ⟨i, p⟩ := ip
      have h26 : abcLetters.data.length = 26 := by decide
      have hi : i < abcLetters.data.length :=
        h26 ▸ h (i, p) (List.mem_cons_self _ _)
      have hget : abcLetters.data[i]? = some (abcLetters.data.getD i 'A') := by
        rw [List.getElem?_eq_getElem hi, List.getD_eq_getElem _ _ hi]
      have hrest := ih (fun ip hip => h ip (List.mem_cons_of_mem _ hip))
      simp only [buildLabels, if_true, hget, Option.map_some', Option.some_bind,
        hrest, List.map_cons]
      rfl

/-- The letter at position 10 of a letter label is the assigned letter. -/
theorem mkAbcLabel_letter (i : ℕ) (p : String) :
    (mkAbcLabel i p).data.getD 10 ' ' = abcLetters.data.getD i 'A' := by
  have hdata : (mkAbcLabel i p).data
      = "Pollutant ".data ++ (abcLetters.data.getD i 'A')
          :: (" (" ++ p ++ ")").data := by
    simp [mkAbcLabel, String.push, String.data_append, List.append_assoc]
  rw [hdata, List.getD_append_right _ _ _ _ (by decide)]
  rfl

theorem range_map_getD {α : Type} (d : α) :
    ∀ (n : ℕ) (l : List α), n ≤ l.length →
      (List.range n).map (fun i => l.getD i d) = l.take n := by
  intro n
  induction n with
  | zero => intro l _; simp
  | succ m ih =>
      intro l hl
      have hm : m < l.length := hl
      rw [List.range_succ, List.map_append, ih l (Nat.le_of_lt hm), List.take_succ]
      simp [List.getElem?_eq_getElem hm, List.getD_eq_getElem _ _ hm]

/-- Sorting a permutation gives the same sorted list (`sorted` in Python is a
function of the multiset of inputs). -/
theorem insertionSort_perm_eq (ps qs : List String) (hp : qs.Perm ps) :
    List.insertionSort (fun a b => a ≤ b) qs
      = List.insertionSort (fun a b => a ≤ b) ps :=
  List.eq_of_perm_of_sorted
    (((List.perm_insertionSort _ qs).trans hp).trans
      (List.perm_insertionSort _ ps).symm)
    (List.sorted_insertionSort _ qs) (List.sorted_insertionSort _ ps)

theorem map_pair_fst {α : Type} (l : List α) :
    (l.map (fun p => (p, p))).map Prod.fst = l := by
  rw [List.map_map]
  have h : (Prod.fst ∘ fun p : α => (p, p)) = id := rfl
  rw [h, List.map_id]

theorem map_pair_snd {α : Type} (l : List α) :
    (l.map (fun p => (p, p))).map Prod.snd = l := by
  rw [List.map_map]
  have h : (Prod.snd ∘ fun p : α => (p, p)) = id := rfl
  rw [h, List.map_id]

/-- C5: pollutant-column label assignment is deterministic and
collision-free: the mapping enumerates the pollutants sorted
lexicographically (a sorted permutation of the input); with letter labels the
`i`-th sorted pollutant gets `"Pollutant <i-th letter> (<name>)"`, without
them the raw name; the labels contain no duplicates; and any permutation of
the same pollutant set yields the identical mapping. -/
theorem c5_labels_deterministic (ps : List String) (b : Bool)
    (hnd : ps.Nodup) (hlen : b = true → ps.length ≤ 26) :
    ∃ m, label_style_map ps b = some m
      ∧ (m.map Prod.fst).Perm ps
      ∧ List.Sorted (fun a b => a ≤ b) (m.map Prod.fst)
      ∧ (m.map Prod.snd).Nodup
      ∧ (∀ qs : List String, qs.Perm ps → label_style_map qs b = some m)
      ∧ (b = false → ∀ pr ∈ m, pr.2 = pr.1)
      ∧ (b = true → ∀ i (h : i < m.length),
          (m.get ⟨i, h⟩).2 = mkAbcLabel i (m.get ⟨i, h⟩).1) := by
  set sorted := List.insertionSort (fun a b => a ≤ b) ps with hsorted
  have hperm : sorted.Perm ps := List.perm_insertionSort _ ps
  have hsortednd : sorted.Nodup := hperm.symm.nodup hnd
  have hsorts : List.Sorted (fun a b => a ≤ b) sorted :=
    List.sorted_insertionSort _ ps
  have hlensorted : sorted.length = ps.length := hperm.length_eq
  have hls : ∀ (rs : List String) b', label_style_map rs b'
      = buildLabels (List.insertionSort (fun a b => a ≤ b) rs).enum b' :=
    fun rs b' => rfl
  cases b with
  | false =>
      have hbuildf : buildLabels sorted.enum false
          = some (sorted.map (fun p => (p, p))) := by
        rw [buildLabels_false]
        congr 1
        exact enum_map_snd_fun sorted (fun p => (p, p))
      refine ⟨sorted.map (fun p => (p, p)), ?_, ?_, ?_, ?_, ?_, ?_, ?_⟩
      · rw [hls, ← hsorted, hbuildf]
      · rw [map_pair_fst]; exact hperm
      · rw [map_pair_fst]; exact hsorts
      · rw [map_pair_snd]; exact hsortednd
      · intro qs hqs
        rw [hls, insertionSort_perm_eq ps qs hqs, ← hsorted, hbuildf]
      · intro _ pr hpr
        obtain ⟨p, _, hp⟩ := List.mem_map.mp hpr
        rw [← hp]
      · intro h; cases h
  | true =>
      have hidx : ∀ ip ∈ sorted.enum, ip.1 < 26 := by
        intro ip hip
        have hgot := List.mem_enum_iff_getElem?.mp hip
        have h1 : ip.1 < sorted.length := by
          by_contra hge
          rw [List.getElem?_eq_none (Nat.le_of_not_lt hge)] at hgot
          cases hgot
        exact Nat.lt_of_lt_of_le h1 (hlensorted ▸ hlen rfl)
      have hbuild := buildLabels_abc sorted.enum hidx
      refine ⟨sorted.enum.map (fun ip => (ip.2, mkAbcLabel ip.1 ip.2)),
        ?_, ?_, ?_, ?_, ?_, ?_, ?_⟩
      · rw [hls, ← hsorted, hbuild]
      · have hfst : (sorted.enum.map
            (fun ip => (ip.2, mkAbcLabel ip.1 ip.2))).map Prod.fst = sorted := by
          rw [List.map_map]
          have h0 : (Prod.fst ∘ fun ip : ℕ × String =>
              (ip.2, mkAbcLabel ip.1 ip.2)) = Prod.snd := rfl
          rw [h0, List.enum_map_snd]
        rw [hfst]; exact hperm
      · have hfst : (sorted.enum.map
            (fun ip => (ip.2, mkAbcLabel ip.1 ip.2))).map Prod.fst = sorted := by
          rw [List.map_map]
          have h0 : (Prod.fst ∘ fun ip : ℕ × String =>
              (ip.2, mkAbcLabel ip.1 ip.2)) = Prod.snd := rfl
          rw [h0, List.enum_map_snd]
        rw [hfst]; exact hsorts
      · have hsnd : (sorted.enum.map
            (fun ip => (ip.2, mkAbcLabel ip.1 ip.2))).map Prod.snd
            = sorted.enum.map (fun ip => mkAbcLabel ip.1 ip.2) := by
          rw [List.map_map]
          exact List.map_congr_left (fun ip _ => rfl)
        have hletters : (sorted.enum.map
            (fun ip => mkAbcLabel ip.1 ip.2)).map (fun s => s.data.getD 10 ' ')
            = abcLetters.data.take sorted.length := by
          rw [List.map_map]
          have h1 : sorted.enum.map ((fun s : String => s.data.getD 10 ' ')
                ∘ (fun ip : ℕ × String => mkAbcLabel ip.1 ip.2))
              = sorted.enum.map
                  (fun ip : ℕ × String => abcLetters.data.getD ip.1 'A') :=
            List.map_congr_left (fun ip _ => mkAbcLabel_letter ip.1 ip.2)
          rw [h1]
          have h2 : sorted.enum.map
              (fun ip : ℕ × String => abcLetters.data.getD ip.1 'A')
              = (sorted.enum.map Prod.fst).map
                  (fun i => abcLetters.data.getD i 'A') := by
            rw [List.map_map]
            exact List.map_congr_left (fun ip _ => rfl)
          rw [h2, List.enum_map_fst]
          apply range_map_getD
          have h26 : abcLetters.data.length = 26 := by decide
          rw [h26, hlensorted]
          exact hlen rfl
        apply List.Nodup.of_map (fun s : String => s.data.getD 10 ' ')
        rw [hsnd, hletters]
        exact (by decide : abcLetters.data.Nodup).sublist (List.take_sublist _ _)
      · intro qs hqs
        rw [hls, insertionSort_perm_eq ps qs hqs, ← hsorted, hbuild]
      · intro h; cases h
      · intro _ i h
        simp only [List.get_eq_getElem, List.getElem_map]
        have h' : i < sorted.enum.length := by
          rw [List.enum_length]
          rw [List.length_map, List.enum_length] at h
          exact h
        rw [List.getElem_enum]

theorem c5_labels_deterministic_witness :
    (label_style_map ["PM2.5", "NO2", "PM10"] true).isSome = true := by
  obtain ⟨m, h1, _⟩ := c5_labels_deterministic ["PM2.5", "NO2", "PM10"] true
    (by decide) (fun _ => by decide)
  rw [h1]
  rfl

/-- An enumerated position at or past the 26 letters makes the label loop
fail, wherever it sits in the list. -/
theorem buildLabels_none (l : List (ℕ × String)) (h : ∃ ip ∈ l, 26 ≤ ip.1) :
    buildLabels l true = none := by
  induction l with
  | nil => obtain ⟨ip, hm, _⟩ := h; cases hm
  | cons ip rest ih =>
      obtain ⟨i, p⟩ := ip
      obtain ⟨jp, hm, hj⟩ := h
      rcases List.mem_cons.mp hm with he | hm'
      · have hi : 26 ≤ i := by subst he; exact hj
        have hnone : abcLetters.data[i]? = none :=
          List.getElem?_eq_none (le_trans (by decide) hi)
        simp [buildLabels, hnone]
      · have hrest := ih ⟨jp, hm', hj⟩
        cases habc : abcLetters.data[i]? with
        | none => simp [buildLabels, habc]
        | some ch => simp [buildLabels, habc, hrest]

/-- C10: with letter labels the assignment is total exactly up to 26
pollutants: every input of at most 26 names gets a complete mapping (one
entry per name), while a concrete input of 27 distinct names makes the
26-letter alphabet lookup fail — the modelled `IndexError` branch returns
`none`. -/
theorem c10_letter_label_bound :
    (∀ ps : List String, ps.length ≤ 26 →
      ∃ m, label_style_map ps true = some m ∧ m.length = ps.length
        ∧ ∀ p ∈ ps, ∃ lab, (p, lab) ∈ m)
    ∧ label_style_map ((List.range 27).map (fun i => "P" ++ toString i)) true
        = none := by
  constructor
  · intro ps hlen
    set sorted := List.insertionSort (fun a b => a ≤ b) ps with hsorted
    have hperm : sorted.Perm ps := List.perm_insertionSort _ ps
    have hlensorted : sorted.length = ps.length := hperm.length_eq
    have hidx : ∀ ip ∈ sorted.enum, ip.1 < 26 := by
      intro ip hip
      have hgot := List.mem_enum_iff_getElem?.mp hip
      have h1 : ip.1 < sorted.length := by
        by_contra hge
        rw [List.getElem?_eq_none (Nat.le_of_not_lt hge)] at hgot
        cases hgot
      exact Nat.lt_of_lt_of_le h1 (hlensorted ▸ hlen)
    have hbuild := buildLabels_abc sorted.enum hidx
    have hls : label_style_map ps true
        = buildLabels (List.insertionSort (fun a b => a ≤ b) ps).enum true := rfl
    refine ⟨sorted.enum.map (fun ip => (ip.2, mkAbcLabel ip.1 ip.2)), ?_, ?_, ?_⟩
    · rw [hls, ← hsorted, hbuild]
    · rw [List.length_map, List.enum_length, hlensorted]
    · intro p hp
      have hfst : (sorted.enum.map
          (fun ip => (ip.2, mkAbcLabel ip.1 ip.2))).map Prod.fst = sorted := by
        rw [List.map_map]
        have h0 : (Prod.fst ∘ fun ip : ℕ × String =>
            (ip.2, mkAbcLabel ip.1 ip.2)) = Prod.snd := rfl
        rw [h0, List.enum_map_snd]
      have hpsorted : p ∈ (sorted.enum.map
          (fun ip => (ip.2, mkAbcLabel ip.1 ip.2))).map Prod.fst := by
        rw [hfst]
        exact hperm.mem_iff.mpr hp
      obtain ⟨pr, hpr, hpe⟩ := List.mem_map.mp hpsorted
      refine ⟨pr.2, ?_⟩
      rw [← hpe]
      exact hpr
  · set sorted := List.insertionSort (fun a b => a ≤ b)
      ((List.range 27).map (fun i => "P" ++ toString i)) with hsorted
    have hlen27 : sorted.length = 27 := by
      rw [hsorted, (List.perm_insertionSort _ _).length_eq,
        List.length_map, List.length_range]
    have h26lt : 26 < sorted.length := by rw [hlen27]; omega
    have hls : label_style_map ((List.range 27).map (fun i => "P" ++ toString i)) true
        = buildLabels sorted.enum true := by rw [hsorted]; rfl
    rw [hls]
    apply buildLabels_none
    refine ⟨(26, sorted.getD 26 ""), ?_, le_refl 26⟩
    rw [List.mem_enum_iff_getElem?]
    rw [List.getElem?_eq_getElem h26lt, List.getD_eq_getElem _ _ h26lt]

theorem c10_letter_label_bound_witness :
    (label_style_map ["NO2", "PM10"] true).isSome = true := by
  obtain ⟨m, h1, _⟩ := c10_letter_label_bound.1 ["NO2", "PM10"] (by decide)
  rw [h1]
  rfl

theorem colIdxAux_eq_none_iff :
    ∀ (cs : List String) (c : String), colIdxAux cs c = none ↔ c ∉ cs := by
  intro cs c
  induction cs with
  | nil => simp [colIdxAux]
  | cons c' cs ih =>
      by_cases h : c' = c
      · subst h; simp [colIdxAux]
      · simp [colIdxAux, h, Option.map_eq_none', ih, Ne.symm h]

theorem colIdxAux_lt_length :
    ∀ (cs : List String) (c : String) (i : ℕ),
      colIdxAux cs c = some i → i < cs.length := by
  intro cs
  induction cs with
  | nil => intro c i h; cases h
  | cons c' cs ih =>
      intro c i h
      by_cases hc : c' = c
      · rw [colIdxAux, if_pos hc] at h
        cases h
        simp
      · rw [colIdxAux, if_neg hc] at h
        cases hi : colIdxAux cs c with
        | none => rw [hi] at h; cases h
        | some j =>
            rw [hi] at h
            cases h
            have := ih c j hi
            simp only [List.length_cons]
            omega

theorem colIdxAux_getD :
    ∀ (cs : List String) (c : String) (i : ℕ),
      colIdxAux cs c = some i → cs.getD i "" = c := by
  intro cs
  induction cs with
  | nil => intro c i h; cases h
  | cons c' cs ih =>
      intro c i h
      by_cases hc : c' = c
      · rw [colIdxAux, if_pos hc] at h
        cases h
        exact hc
      · rw [colIdxAux, if_neg hc] at h
        cases hi : colIdxAux cs c with
        | none => rw [hi] at h; cases h
        | some j =>
            rw [hi] at h
            cases h
            exact ih c j hi

theorem colIdxAux_self :
    ∀ (cs : List String), cs.Nodup → ∀ (k : ℕ), k < cs.length →
      colIdxAux cs (cs.getD k "") = some k := by
  intro cs
  induction cs with
  | nil => intro _ k hk; cases hk
  | cons c' cs ih =>
      intro hnd k hk
      cases k with
      | zero => simp [colIdxAux, List.getD]
      | succ m =>
          have hm : m < cs.length := by
            simp only [List.length_cons] at hk
            omega
          have hmem : cs.getD m "" ∈ cs := by
            rw [List.getD_eq_getElem _ _ hm]
            exact List.getElem_mem hm
          have hne : c' ≠ cs.getD m "" := by
            intro he
            exact (List.nodup_cons.mp hnd).1 (he ▸ hmem)
          have hgd : (c' :: cs).getD (m + 1) "" = cs.getD m "" := rfl
          rw [hgd, colIdxAux, if_neg hne, ih (List.nodup_cons.mp hnd).2 m hm]
          rfl

theorem colIdxAux_some_of_mem (cs : List String) (c : String) (h : c ∈ cs) :
    ∃ i, colIdxAux cs c = some i := by
  cases hi : colIdxAux cs c with
  | none => exact absurd ((colIdxAux_eq_none_iff cs c).mp hi) (not_not_intro h)
  | some i => exact ⟨i, rfl⟩

theorem getD_set_ne_idx (r : List Value) (i j : ℕ) (x d : Value) (h : i ≠ j) :
    (r.set i x).getD j d = r.getD j d := by
  rw [List.getD, List.getD, List.get?_set_ne x r h]

theorem getD_set_self_idx (r : List Value) (i : ℕ) (x d : Value)
    (h : i < r.length) : (r.set i x).getD i d = x := by
  rw [List.getD, List.get?_set_eq_of_lt x h]
  rfl

theorem set_getD_self (r : List Value) (i : ℕ) (d : Value) :
    r.set i (r.getD i d) = r := by
  by_cases h : i < r.length
  · apply List.ext_getElem (by simp)
    intro k hk hk'
    by_cases hik : i = k
    · subst hik
      rw [List.getElem_set_self, List.getD_eq_getElem _ _ h]
    · rw [List.getElem_set_ne hik]
  · rw [List.set_eq_of_length_le (Nat.le_of_not_lt h)]

theorem getD_map_lt {α β : Type} (f : α → β) (l : List α) (i : ℕ) (d : β)
    (d' : α) (h : i < l.length) :
    (l.map f).getD i d = f (l.getD i d') := by
  rw [List.getD_eq_getElem _ _ (by simpa using h),
    List.getD_eq_getElem _ _ h, List.getElem_map]

theorem setColumnWith_rows_length (t : Table) (c : String)
    (f : List Value → Value) :
    (setColumnWith t c f).rows.length = t.rows.length := by
  unfold setColumnWith
  cases colIdx? t c <;> simp

theorem selectCols_rows_length (t : Table) (cs : List String) :
    (selectCols t cs).rows.length = t.rows.length := by
  simp [selectCols]

theorem setColumnWith_cols_of_mem (t : Table) (c : String)
    (f : List Value → Value) (h : c ∈ t.cols) :
    (setColumnWith t c f).cols = t.cols := by
  unfold setColumnWith
  cases hi : colIdx? t c with
  | some i => rfl
  | none => exact absurd ((colIdxAux_eq_none_iff _ _).mp hi) (not_not_intro h)

/-- Candidate schema names for the optional sample-id column. -/
def LONG_sample_id : List String := ["Sample ID", "SampleID", "Sample_Id"]

/-- Candidate schema names for the pollutant-name column. -/
def LONG_pollutant_name : List String := ["Pollutant Name", "Pollutant"]

/-- Candidate schema names for the optional sample-duration column. -/
def LONG_sample_duration : List String := ["Sample Duration", "Sample_Duration", "Duration"]

/-- `pick_first` from the source (the same body as `coalesce`). -/
def pick_first (t : Table) (names : List String) : Option String :=
  names.find? (fun n => t.cols.contains n)

/-- The loop `for c in group_cols: if c not in ordered and c in df.columns:
ordered.append(c)` of `make_long_df`. -/
def appendGroupCols (cols : List String) (base : List String)
    (gcs : List String) : List String :=
  gcs.foldl (fun acc c => if c ∉ acc ∧ c ∈ cols then acc ++ [c] else acc) base

/-- `make_long_df` from the source: standardize a `"Date"` column from the
date column, coerce and round the value column, then project onto the fixed
column precedence (optional id/pollutant/duration columns, `"Date"`, the
value column, then each grouping column not already included).  `none`
models the `KeyError` that `df[col]` raises on an absent column. -/
def make_long_df (t : Table) (date_col value_col : String)
    (group_cols : List String) : Option Table :=
  if date_col ∈ t.cols then
    let t1 := setColumnWith t "Date" (fun r => to_date (getCellRow t r date_col))
    if value_col ∈ t1.cols then
      let t2 := setColumnWith t1 value_col
        (fun r => round3 (to_numeric (getCellRow t1 r value_col)))
      let ordered0 := (pick_first t2 LONG_sample_id).toList
        ++ (pick_first t2 LONG_pollutant_name).toList
        ++ (pick_first t2 LONG_sample_duration).toList ++ ["Date", value_col]
      let ordered1 := appendGroupCols t2.cols ordered0 group_cols
      some (selectCols t2 (ordered1.filter (fun c => decide (c ∈ t2.cols))))
    else none
  else none

/-- C6: the long projection never filters or deduplicates rows — whenever it
returns a table, that table has exactly as many rows as the input. -/
theorem c6_long_row_count (t : Table) (dc vc : String) (gcs : List String)
    (T' : Table) (h : make_long_df t dc vc gcs = some T') :
    T'.rows.length = t.rows.length := by
  simp only [make_long_df] at h
  split at h
  · split at h
    · rw [← Option.some.inj h, selectCols_rows_length,
        setColumnWith_rows_length, setColumnWith_rows_length]
    · exact Option.noConfusion h
  · exact Option.noConfusion h

/-- Concrete input used to instantiate the C6 theorem. -/
def exT6 : Table :=
  ⟨["Date", "Arithmetic Mean", "State"],
   [[Value.str "2025-01-10", Value.num 2, Value.str "Md"]]⟩

theorem c6_long_row_count_witness :
    make_long_df exT6 "Date" "Arithmetic Mean" ["State"]
        = some (⟨["Date", "Arithmetic Mean", "State"],
            [[Value.date "2025-01-10", Value.num 2, Value.str "Md"]]⟩ : Table)
    ∧ (⟨["Date", "Arithmetic Mean", "State"],
        [[Value.date "2025-01-10", Value.num 2, Value.str "Md"]]⟩ : Table).rows.length
        = exT6.rows.length := by
  have he : make_long_df exT6 "Date" "Arithmetic Mean" ["State"]
      = some (⟨["Date", "Arithmetic Mean", "State"],
          [[Value.date "2025-01-10", Value.num 2, Value.str "Md"]]⟩ : Table) := by
    decide
  exact ⟨he, c6_long_row_count exT6 "Date" "Arithmetic Mean" ["State"] _ he⟩

theorem contains_eq_mem_str (l : List String) (a : String) :
    l.contains a = true ↔ a ∈ l := by simp

theorem pick_first_mem (t : Table) (L : List String) (c : String)
    (h : pick_first t L = some c) : c ∈ t.cols :=
  (contains_eq_mem_str _ _).mp (List.find?_some h)

theorem pick_first_cand (t : Table) (L : List String) (c : String)
    (h : pick_first t L = some c) : c ∈ L :=
  List.mem_of_find?_eq_some h

theorem appendGroupCols_cons (cols base : List String) (g : String)
    (gs : List String) :
    appendGroupCols cols base (g :: gs)
      = appendGroupCols cols
          (if g ∉ base ∧ g ∈ cols then base ++ [g] else base) gs := rfl

theorem appendGroupCols_base_sub :
    ∀ (gcs cols base : List String) (x : String),
      x ∈ base → x ∈ appendGroupCols cols base gcs := by
  intro gcs
  induction gcs with
  | nil => intro cols base x hx; exact hx
  | cons g gs ih =>
      intro cols base x hx
      rw [appendGroupCols_cons]
      apply ih
      by_cases hcond : g ∉ base ∧ g ∈ cols
      · rw [if_pos hcond]; exact List.mem_append_left _ hx
      · rw [if_neg hcond]; exact hx

theorem appendGroupCols_mem :
    ∀ (gcs cols base : List String) (x : String),
      (∀ y ∈ base, y ∈ cols) → x ∈ appendGroupCols cols base gcs → x ∈ cols := by
  intro gcs
  induction gcs with
  | nil => intro cols base x hbase hx; exact hbase x hx
  | cons g gs ih =>
      intro cols base x hbase hx
      rw [appendGroupCols_cons] at hx
      by_cases hcond : g ∉ base ∧ g ∈ cols
      · rw [if_pos hcond] at hx
        refine ih cols (base ++ [g]) x ?_ hx
        intro y hy
        rcases List.mem_append.mp hy with hy | hy
        · exact hbase y hy
        · rw [List.mem_singleton.mp hy]; exact hcond.2
      · rw [if_neg hcond] at hx
        exact ih cols base x hbase hx

theorem appendGroupCols_covers :
    ∀ (gcs cols base : List String) (c : String),
      c ∈ gcs → c ∈ cols → c ∈ appendGroupCols cols base gcs := by
  intro gcs
  induction gcs with
  | nil => intro cols base c hc _; cases hc
  | cons g gs ih =>
      intro cols base c hc hcol
      rw [appendGroupCols_cons]
      rcases List.mem_cons.mp hc with rfl | hc'
      · by_cases hcond : c ∉ base ∧ c ∈ cols
        · rw [if_pos hcond]
          exact appendGroupCols_base_sub gs cols _ c
            (List.mem_append_right _ (List.mem_singleton.mpr rfl))
        · rw [if_neg hcond]
          have hcb : c ∈ base := by
            by_contra hnb
            exact hcond ⟨hnb, hcol⟩
          exact appendGroupCols_base_sub gs cols base c hcb
      · exact ih cols _ c hc' hcol

theorem appendGroupCols_congr :
    ∀ (gcs A B base : List String),
      (∀ c ∈ gcs, (c ∈ A ↔ c ∈ B)) →
      appendGroupCols A base gcs = appendGroupCols B base gcs := by
  intro gcs
  induction gcs with
  | nil => intro A B base _; rfl
  | cons g gs ih =>
      intro A B base h
      rw [appendGroupCols_cons, appendGroupCols_cons]
      have hg := h g (List.mem_cons_self _ _)
      have htail : ∀ c ∈ gs, (c ∈ A ↔ c ∈ B) :=
        fun c hc => h c (List.mem_cons_of_mem _ hc)
      by_cases hcond : g ∉ base ∧ g ∈ A
      · rw [if_pos hcond, if_pos ⟨hcond.1, hg.mp hcond.2⟩]
        exact ih A B _ htail
      · have hcond' : ¬ (g ∉ base ∧ g ∈ B) := fun hb => hcond ⟨hb.1, hg.mpr hb.2⟩
        rw [if_neg hcond, if_neg hcond']
        exact ih A B _ htail

theorem appendGroupCols_nodup :
    ∀ (gcs cols base : List String), base.Nodup →
      (appendGroupCols cols base gcs).Nodup := by
  intro gcs
  induction gcs with
  | nil => intro cols base h; exact h
  | cons g gs ih =>
      intro cols base h
      rw [appendGroupCols_cons]
      by_cases hcond : g ∉ base ∧ g ∈ cols
      · rw [if_pos hcond]
        exact ih cols _ (h.append (List.nodup_singleton g)
          (List.disjoint_singleton.mpr hcond.1))
      · rw [if_neg hcond]
        exact ih cols base h

theorem to_date_fix (v : Value) : to_date (to_date v) = to_date v := by
  cases v with
  | na => rfl
  | num q => rfl
  | date s => rfl
  | str s =>
      cases hp : parseYMD? s with
      | none => simp [to_date, hp]
      | some d => simp [to_date, hp]

theorem to_numeric_shape (v : Value) :
    to_numeric v = .na ∨ ∃ q, to_numeric v = .num q := by
  cases v with
  | na => exact Or.inl rfl
  | num q => exact Or.inr ⟨q, rfl⟩
  | date s => exact Or.inl rfl
  | str s =>
      cases hp : parseDecimal? s with
      | none => exact Or.inl (by simp [to_numeric, hp])
      | some q => exact Or.inr ⟨q, by simp [to_numeric, hp]⟩

theorem roundQ_intCast (n : ℤ) : roundQ (n : ℚ) = n := by
  unfold roundQ
  have h : Rat.floor ((n : ℚ) + 1 / 2) = ⌊((n : ℚ) + 1 / 2)⌋ := rfl
  rw [h, Int.floor_int_add]
  have h2 : ⌊(1 / 2 : ℚ)⌋ = 0 := by norm_num
  rw [h2, add_zero]

theorem roundQ3_idem (q : ℚ) : roundQ3 (roundQ3 q) = roundQ3 q := by
  unfold roundQ3
  rw [div_mul_cancel₀ _ (by norm_num : (1000 : ℚ) ≠ 0), roundQ_intCast]

theorem coerce_fix (v : Value) :
    round3 (to_numeric (round3 (to_numeric v))) = round3 (to_numeric v) := by
  rcases to_numeric_shape v with h | ⟨q, h⟩
  · rw [h]; rfl
  · rw [h]
    show round3 (to_numeric (Value.num (roundQ3 q))) = round3 (Value.num q)
    simp [to_numeric, round3, roundQ3_idem]

theorem colIdxAux_mem (cs : List String) (c : String) (i : ℕ)
    (h : colIdxAux cs c = some i) : c ∈ cs := by
  have h1 := colIdxAux_lt_length cs c i h
  have h2 := colIdxAux_getD cs c i h
  rw [← h2, List.getD_eq_getElem _ _ h1]
  exact List.getElem_mem h1

theorem setColumnWith_rows_of_some (t : Table) (c : String)
    (f : List Value → Value) (i : ℕ) (hi : colIdx? t c = some i) :
    (setColumnWith t c f).rows = t.rows.map (fun r => r.set i (f r)) := by
  unfold setColumnWith
  cases hj : colIdx? t c with
  | none => rw [hj] at hi; exact Option.noConfusion hi
  | some j =>
      rw [hj] at hi
      cases hi
      rfl

theorem getCellRow_eq_getD (t : Table) (r : List Value) (c : String) (i : ℕ)
    (hi : colIdx? t c = some i) : getCellRow t r c = r.getD i Value.na := by
  unfold getCellRow
  cases hj : colIdx? t c with
  | none => rw [hj] at hi; exact Option.noConfusion hi
  | some j =>
      rw [hj] at hi
      cases hi
      rfl

theorem colIdx?_of_cols_eq {t t' : Table} (h : t'.cols = t.cols) (c : String) :
    colIdx? t' c = colIdx? t c := by
  unfold colIdx?
  rw [h]

theorem colIdx?_ne_idx {t : Table} {c c' : String} {i j : ℕ}
    (hi : colIdx? t c = some i) (hj : colIdx? t c' = some j)
    (hne : c ≠ c') : i ≠ j := by
  intro he
  subst he
  exact hne ((colIdxAux_getD _ _ _ hi).symm.trans (colIdxAux_getD _ _ _ hj))

theorem Table.ext' {a b : Table} (h1 : a.cols = b.cols) (h2 : a.rows = b.rows) :
    a = b := by
  cases a
  cases b
  cases h1
  cases h2
  rfl

theorem setColumnWith_cell_pred (t : Table) (c : String)
    (f : List Value → Value) (i : ℕ) (hi : colIdx? t c = some i)
    (P : Value → Prop) (hPf : ∀ r, P (f r)) (hPna : P Value.na) :
    ∀ r' ∈ (setColumnWith t c f).rows,
      P (getCellRow (setColumnWith t c f) r' c) := by
  intro r' hr'
  have hrows := setColumnWith_rows_of_some t c f i hi
  have hcols : (setColumnWith t c f).cols = t.cols :=
    setColumnWith_cols_of_mem t c f (colIdxAux_mem _ _ _ hi)
  have hci : colIdx? (setColumnWith t c f) c = some i := by
    rw [colIdx?_of_cols_eq hcols]; exact hi
  rw [getCellRow_eq_getD _ _ _ _ hci]
  rw [hrows] at hr'
  obtain ⟨r, hr, rfl⟩ := List.mem_map.mp hr'
  by_cases hlen : i < r.length
  · rw [getD_set_self_idx r i (f r) Value.na hlen]
    exact hPf r
  · rw [List.set_eq_of_length_le (Nat.le_of_not_lt hlen),
      List.getD_eq_default _ _ (Nat.le_of_not_lt hlen)]
    exact hPna

theorem setColumnWith_id (t : Table) (c : String) (f : List Value → Value)
    (i : ℕ) (hi : colIdx? t c = some i)
    (hfix : ∀ r ∈ t.rows, f r = r.getD i Value.na) :
    setColumnWith t c f = t := by
  have hrows := setColumnWith_rows_of_some t c f i hi
  have hcols : (setColumnWith t c f).cols = t.cols :=
    setColumnWith_cols_of_mem t c f (colIdxAux_mem _ _ _ hi)
  have h1 : ∀ r ∈ t.rows, r.set i (f r) = id r := by
    intro r hr
    rw [hfix r hr]
    exact set_getD_self r i Value.na
  exact Table.ext' hcols
    (hrows.trans ((List.map_congr_left h1).trans (List.map_id _)))

theorem find_first_agree :
    ∀ (cands : List String) (pA pB : String → Bool),
      (∀ x, pA x = true → pB x = true) →
      (∀ x, cands.find? pB = some x → pA x = true) →
      cands.find? pA = cands.find? pB := by
  intro cands
  induction cands with
  | nil => intro pA pB _ _; rfl
  | cons c cs ih =>
      intro pA pB hsub hfound
      cases hBc : pB c with
      | true =>
          have hfind : (c :: cs).find? pB = some c := by
            simp [List.find?_cons, hBc]
          have hAc : pA c = true := hfound c hfind
          rw [hfind]
          simp [List.find?_cons, hAc]
      | false =>
          have hAc : pA c = false := by
            cases hac : pA c
            · rfl
            · have := hsub c hac
              rw [hBc] at this
              exact Bool.noConfusion this
          have e1 : (c :: cs).find? pA = cs.find? pA := by
            simp [List.find?_cons, hAc]
          have e2 : (c :: cs).find? pB = cs.find? pB := by
            simp [List.find?_cons, hBc]
          rw [e1, e2]
          exact ih pA pB hsub (fun x hx => hfound x (by rw [e2]; exact hx))

theorem option_toList_nodup {α : Type} (o : Option α) : o.toList.Nodup := by
  cases o <;> simp

theorem ordered0_nodup (t2 : Table) (vc : String)
    (h1 : vc ∉ LONG_sample_id) (h2 : vc ∉ LONG_pollutant_name)
    (h3 : vc ∉ LONG_sample_duration) (h4 : vc ≠ "Date") :
    ((pick_first t2 LONG_sample_id).toList
      ++ (pick_first t2 LONG_pollutant_name).toList
      ++ (pick_first t2 LONG_sample_duration).toList ++ ["Date", vc]).Nodup := by
  have hA : ∀ x ∈ (pick_first t2 LONG_sample_id).toList, x ∈ LONG_sample_id :=
    fun x hx => pick_first_cand t2 _ x (by simpa using hx)
  have hB : ∀ x ∈ (pick_first t2 LONG_pollutant_name).toList,
      x ∈ LONG_pollutant_name :=
    fun x hx => pick_first_cand t2 _ x (by simpa using hx)
  have hC : ∀ x ∈ (pick_first t2 LONG_sample_duration).toList,
      x ∈ LONG_sample_duration :=
    fun x hx => pick_first_cand t2 _ x (by simpa using hx)
  have dAB : ∀ a ∈ LONG_sample_id, ∀ b ∈ LONG_pollutant_name, a ≠ b := by decide
  have dAC : ∀ a ∈ LONG_sample_id, ∀ b ∈ LONG_sample_duration, a ≠ b := by decide
  have dBC : ∀ a ∈ LONG_pollutant_name, ∀ b ∈ LONG_sample_duration, a ≠ b := by
    decide
  have dAD : ∀ a ∈ LONG_sample_id, a ≠ "Date" := by decide
  have dBD : ∀ a ∈ LONG_pollutant_name, a ≠ "Date" := by decide
  have dCD : ∀ a ∈ LONG_sample_duration, a ≠ "Date" := by decide
  rw [List.append_assoc, List.append_assoc]
  apply (option_toList_nodup _).append
  · apply (option_toList_nodup _).append
    · apply (option_toList_nodup _).append
      · refine List.nodup_cons.mpr ⟨?_, List.nodup_singleton vc⟩
        intro hmem
        exact h4 ((List.mem_singleton.mp hmem).symm)
      · intro x hxC hxD
        have hxC' := hC x hxC
        rcases (by simpa using hxD : x = "Date" ∨ x = vc) with rfl | rfl
        · exact dCD _ hxC' rfl
        · exact h3 hxC'
    · intro x hxB hx
      have hxB' := hB x hxB
      rcases List.mem_append.mp hx with hxC | hxD
      · exact dBC _ hxB' _ (hC x hxC) rfl
      · rcases (by simpa using hxD : x = "Date" ∨ x = vc) with rfl | rfl
        · exact dBD _ hxB' rfl
        · exact h2 hxB'
  · intro x hxA hx
    have hxA' := hA x hxA
    rcases List.mem_append.mp hx with hxB | hx'
    · exact dAB _ hxA' _ (hB x hxB) rfl
    · rcases List.mem_append.mp hx' with hxC | hxD
      · exact dAC _ hxA' _ (hC x hxC) rfl
      · rcases (by simpa using hxD : x = "Date" ∨ x = vc) with rfl | rfl
        · exact dAD _ hxA' rfl
        · exact h1 hxA'

/-- C7 (amended): re-projection with the same arguments is the identity on
the output provided the date-column argument is the standardized name
`"Date"` — the one name the projection keeps — and the value column is none
of the fixed special names.  (With any other date column the projected table
no longer contains it and a second application fails; see the
counterexample.) -/
theorem c7_long_reprojection_idempotent (t : Table) (vc : String)
    (gcs : List String) (T' : Table)
    (hvc1 : vc ≠ "Date") (hvc2 : vc ∉ LONG_sample_id)
    (hvc3 : vc ∉ LONG_pollutant_name) (hvc4 : vc ∉ LONG_sample_duration)
    (h : make_long_df t "Date" vc gcs = some T') :
    make_long_df T' "Date" vc gcs = some T' := by
  have h' := h
  simp only [make_long_df] at h'
  by_cases hD : "Date" ∈ t.cols
  swap
  · rw [if_neg hD] at h'
    exact Option.noConfusion h'
  rw [if_pos hD] at h'
  set t1 := setColumnWith t "Date" (fun r => to_date (getCellRow t r "Date"))
    with ht1
  by_cases hv : vc ∈ t1.cols
  swap
  · rw [if_neg hv] at h'
    exact Option.noConfusion h'
  rw [if_pos hv] at h'
  set t2 := setColumnWith t1 vc
      (fun r => round3 (to_numeric (getCellRow t1 r vc))) with ht2
  set ordered0 := (pick_first t2 LONG_sample_id).toList
      ++ (pick_first t2 LONG_pollutant_name).toList
      ++ (pick_first t2 LONG_sample_duration).toList ++ ["Date", vc] with hord0
  set ordered1 := appendGroupCols t2.cols ordered0 gcs with hord1
  have hT : T' = selectCols t2 (ordered1.filter (fun c => decide (c ∈ t2.cols))) :=
    (Option.some.inj h').symm
  -- column bookkeeping
  have hcols1 : t1.cols = t.cols := setColumnWith_cols_of_mem t "Date" _ hD
  have hcols2 : t2.cols = t1.cols := setColumnWith_cols_of_mem t1 vc _ hv
  obtain ⟨iD0, hiD0⟩ := colIdxAux_some_of_mem t.cols "Date" hD
  have hiD0' : colIdx? t "Date" = some iD0 := hiD0
  have hiD1 : colIdx? t1 "Date" = some iD0 := by
    rw [colIdx?_of_cols_eq hcols1]; exact hiD0'
  obtain ⟨iv, hiv0⟩ := colIdxAux_some_of_mem t1.cols vc hv
  have hiv : colIdx? t1 vc = some iv := hiv0
  have hiD2 : colIdx? t2 "Date" = some iD0 := by
    rw [colIdx?_of_cols_eq hcols2]; exact hiD1
  have hne_idx : iD0 ≠ iv := colIdx?_ne_idx hiD1 hiv (fun he => hvc1 he.symm)
  have hDate_t2 : "Date" ∈ t2.cols := by rw [hcols2, hcols1]; exact hD
  have hvc_t2 : vc ∈ t2.cols := by rw [hcols2]; exact hv
  -- every base column exists in t2
  have hbase_sub : ∀ y ∈ ordered0, y ∈ t2.cols := by
    intro y hy
    rw [hord0] at hy
    rcases List.mem_append.mp hy with hy' | hyD
    · rcases List.mem_append.mp hy' with hy'' | hyC
      · rcases List.mem_append.mp hy'' with hyA | hyB
        · exact pick_first_mem t2 _ y (by simpa using hyA)
        · exact pick_first_mem t2 _ y (by simpa using hyB)
      · exact pick_first_mem t2 _ y (by simpa using hyC)
    · rcases (by simpa using hyD : y = "Date" ∨ y = vc) with rfl | rfl
      · exact hDate_t2
      · exact hvc_t2
  have hordered1_sub : ∀ y ∈ ordered1, y ∈ t2.cols := by
    intro y hy
    exact appendGroupCols_mem gcs t2.cols ordered0 y hbase_sub (by rw [← hord1]; exact hy)
  have hfilter_id : ordered1.filter (fun c => decide (c ∈ t2.cols)) = ordered1 :=
    List.filter_eq_self.mpr (fun a ha => decide_eq_true (hordered1_sub a ha))
  rw [hfilter_id] at hT
  have hTcols : T'.cols = ordered1 := by rw [hT]; rfl
  have hTrows : T'.rows
      = t2.rows.map (fun r => ordered1.map (fun c => getCellRow t2 r c)) := by
    rw [hT]; rfl
  -- membership of the special columns in the projection
  have hDate_ord0 : "Date" ∈ ordered0 := by
    rw [hord0]
    exact List.mem_append_right _ (by simp)
  have hvc_ord0 : vc ∈ ordered0 := by
    rw [hord0]
    exact List.mem_append_right _ (by simp)
  have hDate_ord1 : "Date" ∈ ordered1 := by
    rw [hord1]
    exact appendGroupCols_base_sub gcs t2.cols ordered0 "Date" hDate_ord0
  have hvc_ord1 : vc ∈ ordered1 := by
    rw [hord1]
    exact appendGroupCols_base_sub gcs t2.cols ordered0 vc hvc_ord0
  have hord1_nodup : ordered1.Nodup := by
    rw [hord1]
    exact appendGroupCols_nodup gcs t2.cols ordered0
      (by rw [hord0]; exact ordered0_nodup t2 vc hvc2 hvc3 hvc4 hvc1)
  -- indices in the projected table
  obtain ⟨iDT, hiDT⟩ := colIdxAux_some_of_mem ordered1 "Date" hDate_ord1
  have hiDT' : colIdx? T' "Date" = some iDT := by
    unfold colIdx?; rw [hTcols]; exact hiDT
  obtain ⟨ivT, hivT⟩ := colIdxAux_some_of_mem ordered1 vc hvc_ord1
  have hivT' : colIdx? T' vc = some ivT := by
    unfold colIdx?; rw [hTcols]; exact hivT
  -- reading a projected row at a named column
  have hread : ∀ (c : String) (j : ℕ), colIdxAux ordered1 c = some j →
      ∀ r, getCellRow T' (ordered1.map (fun c' => getCellRow t2 r c')) c
        = getCellRow t2 r c := by
    intro c j hj r
    have hjc : colIdx? T' c = some j := by unfold colIdx?; rw [hTcols]; exact hj
    rw [getCellRow_eq_getD T' _ c j hjc,
      getD_map_lt (fun c' => getCellRow t2 r c') ordered1 j Value.na ""
        (colIdxAux_lt_length _ _ _ hj),
      colIdxAux_getD _ _ _ hj]
  -- the Date cells of the projection are to_date-stable
  have hDatePred : ∀ r1 ∈ t1.rows,
      to_date (getCellRow t1 r1 "Date") = getCellRow t1 r1 "Date" := by
    have := setColumnWith_cell_pred t "Date"
      (fun r => to_date (getCellRow t r "Date")) iD0 hiD0'
      (fun v => to_date v = v) (fun r => to_date_fix _) rfl
    intro r1 hr1
    exact this r1 hr1
  have hvcPred : ∀ r ∈ t2.rows,
      round3 (to_numeric (getCellRow t2 r vc)) = getCellRow t2 r vc := by
    have := setColumnWith_cell_pred t1 vc
      (fun r => round3 (to_numeric (getCellRow t1 r vc))) iv hiv
      (fun v => round3 (to_numeric v) = v) (fun r => coerce_fix _) rfl
    intro r hr
    exact this r hr
  have ht2rows : t2.rows = t1.rows.map
      (fun r1 => r1.set iv (round3 (to_numeric (getCellRow t1 r1 vc)))) := by
    rw [ht2]
    exact setColumnWith_rows_of_some t1 vc _ iv hiv
  have hDateFix : ∀ r' ∈ T'.rows,
      to_date (getCellRow T' r' "Date") = getCellRow T' r' "Date" := by
    intro r' hr'
    rw [hTrows] at hr'
    obtain ⟨r, hr, rfl⟩ := List.mem_map.mp hr'
    rw [hread "Date" iDT hiDT r]
    have hcell2 : getCellRow t2 r "Date"
        = Value.na ∨ ∃ r1 ∈ t1.rows, getCellRow t2 r "Date" = getCellRow t1 r1 "Date" := by
      rw [ht2rows] at hr
      obtain ⟨r1, hr1, rfl⟩ := List.mem_map.mp hr
      right
      refine ⟨r1, hr1, ?_⟩
      rw [getCellRow_eq_getD t2 _ _ iD0 hiD2, getCellRow_eq_getD t1 _ _ iD0 hiD1,
        getD_set_ne_idx r1 iv iD0 _ Value.na (fun he => hne_idx he.symm)]
    rcases hcell2 with hna | ⟨r1, hr1, he⟩
    · rw [hna]; rfl
    · rw [he]
      exact hDatePred r1 hr1
  have hvcFix : ∀ r' ∈ T'.rows,
      round3 (to_numeric (getCellRow T' r' vc)) = getCellRow T' r' vc := by
    intro r' hr'
    rw [hTrows] at hr'
    obtain ⟨r, hr, rfl⟩ := List.mem_map.mp hr'
    rw [hread vc ivT hivT r]
    exact hvcPred r hr
  -- the two column assignments of the second run are the identity
  have ht1' : setColumnWith T' "Date"
      (fun r => to_date (getCellRow T' r "Date")) = T' := by
    apply setColumnWith_id T' "Date" _ iDT hiDT'
    intro r' hr'
    rw [← getCellRow_eq_getD T' r' "Date" iDT hiDT']
    exact hDateFix r' hr'
  have ht2'' : setColumnWith T' vc
      (fun r => round3 (to_numeric (getCellRow T' r vc))) = T' := by
    apply setColumnWith_id T' vc _ ivT hivT'
    intro r' hr'
    rw [← getCellRow_eq_getD T' r' vc ivT hivT']
    exact hvcFix r' hr'
  -- the picks of the second run agree with the first
  have hpick : ∀ (L : List String),
      (∀ x, pick_first t2 L = some x → x ∈ ordered0) →
      pick_first T' L = pick_first t2 L := by
    intro L hfound
    unfold pick_first
    have hTc : T'.cols = ordered1 := hTcols
    rw [hTc]
    apply find_first_agree L (fun n => ordered1.contains n)
      (fun n => t2.cols.contains n)
    · intro x hx
      have hmem : x ∈ ordered1 := (contains_eq_mem_str _ _).mp hx
      exact (contains_eq_mem_str _ _).mpr (hordered1_sub x hmem)
    · intro x hx
      have hmem : x ∈ ordered0 := hfound x hx
      exact (contains_eq_mem_str _ _).mpr
        (by rw [hord1]; exact appendGroupCols_base_sub gcs t2.cols ordered0 x hmem)
  have hpick_sid : pick_first T' LONG_sample_id = pick_first t2 LONG_sample_id := by
    apply hpick
    intro x hx
    rw [hord0]
    exact List.mem_append_left _ (List.mem_append_left _
      (List.mem_append_left _ (by simp [hx])))
  have hpick_pol : pick_first T' LONG_pollutant_name
      = pick_first t2 LONG_pollutant_name := by
    apply hpick
    intro x hx
    rw [hord0]
    exact List.mem_append_left _ (List.mem_append_left _
      (List.mem_append_right _ (by simp [hx])))
  have hpick_dur : pick_first T' LONG_sample_duration
      = pick_first t2 LONG_sample_duration := by
    apply hpick
    intro x hx
    rw [hord0]
    exact List.mem_append_left _ (List.mem_append_right _ (by simp [hx]))
  -- the projection of the second run is the identity
  have hsel : selectCols T' ordered1 = T' := by
    have hrow_id : ∀ r' ∈ T'.rows,
        ordered1.map (fun c => getCellRow T' r' c) = r' := by
      intro r' hr'
      have hlen : r'.length = ordered1.length := by
        rw [hTrows] at hr'
        obtain ⟨r, _, rfl⟩ := List.mem_map.mp hr'
        simp
      apply List.ext_getElem (by simp [hlen])
      intro k hk hk'
      rw [List.getElem_map]
      have hk1 : k < ordered1.length := by simpa using hk
      have hidx : colIdxAux ordered1 (ordered1.getD k "") = some k :=
        colIdxAux_self ordered1 hord1_nodup k hk1
      rw [← List.getD_eq_getElem ordered1 "" hk1,
        getCellRow_eq_getD T' r' _ k
          (by unfold colIdx?; rw [hTcols]; exact hidx),
        List.getD_eq_getElem _ _ hk']
    have hrows_id : T'.rows.map
        (fun r' => ordered1.map (fun c => getCellRow T' r' c)) = T'.rows :=
      (List.map_congr_left (fun r' hr' => hrow_id r' hr')).trans (List.map_id _)
    exact Table.ext' hTcols.symm hrows_id
  -- assemble the second run
  have hDT' : "Date" ∈ T'.cols := by rw [hTcols]; exact hDate_ord1
  have hvT' : vc ∈ T'.cols := by rw [hTcols]; exact hvc_ord1
  simp only [make_long_df]
  rw [if_pos hDT', ht1', if_pos hvT', ht2'', hpick_sid, hpick_pol, hpick_dur,
    ← hord0, hTcols]
  have hagree : appendGroupCols ordered1 ordered0 gcs
      = appendGroupCols t2.cols ordered0 gcs :=
    appendGroupCols_congr gcs ordered1 t2.cols ordered0
      (fun c hc => ⟨fun hmem => hordered1_sub c hmem,
        fun hmem => by
          rw [hord1]
          exact appendGroupCols_covers gcs t2.cols ordered0 c hc hmem⟩)
  rw [hagree, ← hord1]
  have hf2 : ordered1.filter (fun c => decide (c ∈ ordered1)) = ordered1 :=
    List.filter_eq_self.mpr (fun a ha => decide_eq_true ha)
  rw [hf2, hsel]

/-- C7 (claim as stated, counterexample): projecting with date column
`"Date Local"` succeeds, but the output no longer contains a `"Date Local"`
column, so re-projecting the output with the same arguments fails
(`KeyError` in Python, `none` here) instead of returning the output
unchanged. -/
def exT7 : Table :=
  ⟨["Date Local", "Arithmetic Mean", "State", "Pollutant Name"],
   [[Value.str "2025-01-10", Value.num 2, Value.str "Md", Value.str "NO2"]]⟩

theorem c7_claim_counterexample :
    (make_long_df exT7 "Date Local" "Arithmetic Mean" ["State"]).isSome = true
    ∧ (make_long_df exT7 "Date Local" "Arithmetic Mean" ["State"]).bind
        (fun u => make_long_df u "Date Local" "Arithmetic Mean" ["State"])
        = none := by
  decide

/-- Concrete input used to instantiate the C7 theorem. -/
def exT7w : Table :=
  ⟨["Date", "Arithmetic Mean", "City"],
   [[Value.str "2025-02-03", Value.num 3, Value.str "Ames"]]⟩

theorem c7_long_reprojection_idempotent_witness :
    make_long_df (⟨["Date", "Arithmetic Mean", "City"],
        [[Value.date "2025-02-03", Value.num 3, Value.str "Ames"]]⟩ : Table)
      "Date" "Arithmetic Mean" ["City"]
      = some (⟨["Date", "Arithmetic Mean", "City"],
          [[Value.date "2025-02-03", Value.num 3, Value.str "Ames"]]⟩ : Table) := by
  apply c7_long_reprojection_idempotent exT7w "Arithmetic Mean" ["City"] _
    (by decide) (by decide) (by decide) (by decide)
  decide

/-- Python `str.lower()` (ASCII case folding, all the script's choices are
ASCII). -/
def pyLower (s : String) : String := ⟨s.data.map Char.toLower⟩

/-- Whitespace for Python `str.strip()`. -/
def isSpaceChar (c : Char) : Bool :=
  c = ' ' ∨ c = '\t' ∨ c = '\n' ∨ c = '\r'

/-- Python `str.strip()`. -/
def pyStrip (s : String) : String :=
  ⟨(((s.data.dropWhile isSpaceChar).reverse.dropWhile isSpaceChar).reverse)⟩

/-- Splitting a character list at commas (Python `str.split(",")`). -/
def splitCommaAux : List Char → List Char → List String
  | [], acc => [⟨acc.reverse⟩]
  | c :: cs, acc =>
      if c = ',' then ⟨acc.reverse⟩ :: splitCommaAux cs []
      else splitCommaAux cs (c :: acc)

/-- Python `str.split(",")`. -/
def pySplitComma (s : String) : List String := splitCommaAux s.data []

/-- The configuration errors `choose_grouping` raises (each is a distinct
`ValueError` in the source). -/
inductive CErr : Type
  | dateNotFound
  | valueNotFound
  | invalidGrouping
  | groupColNotFound (choice : String)
  | coordsNotFound
  | noCustomCols
  | unknownColumns (missing : List String)
deriving DecidableEq

/-- The replies the user gives to the dialogs of `choose_grouping`; `none`
models a cancelled dialog. -/
structure GroupAnswers : Type where
  dateAns : Option String
  valAns : Option String
  choiceAns : Option String
  customAns : Option String
deriving DecidableEq

/-- The date-column candidates probed by `choose_grouping`. -/
def DATE_CANDIDATES : List String := ["Date", "Date Local", "Date Observed", "Date GMT"]

/-- `ensure_date` from the source: parse the date column to calendar dates
in place (bad cells degrade to missing, they never raise). -/
def ensure_date (t : Table) (c : String) : Table :=
  setColumnWith t c (fun r => to_date (getCellRow t r c))

/-- `ask_choice` from the source: a falsy reply is invalid; otherwise the
reply is stripped and lowercased and checked against the allowed options
case-insensitively. -/
def ask_choice (ans : Option String) (choices : List String) : Option String :=
  match ans with
  | none => none
  | some s =>
      if s = "" then none
      else
        let s' := pyLower (pyStrip s)
        if (choices.map pyLower).contains s' then some s' else none

/-- `GROUP_MAP` from the source, for the five single-column groupings. -/
def GROUP_MAP_simple : String → List String
  | "state" => ["State Name", "State"]
  | "city" => ["City Name", "City"]
  | "county" => ["County Name", "County"]
  | "site" => ["Site Num", "Site Number"]
  | _ => ["CBSA Name", "CBSA", "CBSA Name (2018)", "CBSA Code"]

/-- `GROUP_MAP["coordinates"][:3]` — the latitude candidates. -/
def GROUP_COORD_LAT : List String := ["Latitude", "Site Latitude", "Lat"]

/-- `GROUP_MAP["coordinates"][3:]` — the longitude candidates. -/
def GROUP_COORD_LON : List String := ["Longitude", "Site Longitude", "Lon", "Long"]

/-- The validation logic of `choose_grouping` after the date column has been
normalized: value-column resolution, grouping choice, and the per-choice
column resolution, with each `raise` modelled as `Except.error`. -/
def cg_decide (df : Table) (date_col : String) (a : GroupAnswers) :
    Except CErr (String × String × List String) :=
  let vc? : Option String :=
    if "Arithmetic Mean" ∈ df.cols then some "Arithmetic Mean"
    else
      match a.valAns with
      | none => none
      | some v => if v = "" ∨ v ∉ df.cols then none else some v
  match vc? with
  | none => .error .valueNotFound
  | some val_col =>
      match ask_choice a.choiceAns
          ["state", "city", "county", "site", "cbsa", "coordinates", "custom"] with
      | none => .error .invalidGrouping
      | some choice =>
          if choice ∈ ["state", "city", "county", "site", "cbsa"] then
            match coalesce df (GROUP_MAP_simple choice) with
            | none => .error (.groupColNotFound choice)
            | some col => .ok (date_col, val_col, [col])
          else if choice = "coordinates" then
            match coalesce df GROUP_COORD_LAT, coalesce df GROUP_COORD_LON with
            | some la, some lo => .ok (date_col, val_col, [la, lo])
            | _, _ => .error .coordsNotFound
          else
            match a.customAns with
            | none => .error .noCustomCols
            | some s =>
                if s = "" then .error .noCustomCols
                else
                  let parts := ((pySplitComma s).map pyStrip).filter
                    (fun c => decide (c ≠ ""))
                  let missing := parts.filter (fun c => decide (c ∉ df.cols))
                  if missing = [] then .ok (date_col, val_col, parts)
                  else .error (.unknownColumns missing)

/-- The tail of `choose_grouping` once a date column is known: normalize the
date column in place, then validate.  The first component is the state of
the caller's DataFrame after the call — the in-place normalization is
visible even when a later validation step raises. -/
def cg_afterDate (df0 : Table) (date_col : String) (a : GroupAnswers) :
    Table × Except CErr (String × String × List String) :=
  let df := ensure_date df0 date_col
  (df, cg_decide df date_col a)

/-- `choose_grouping` from the source, dialog replies passed as arguments. -/
def choose_grouping (df : Table) (a : GroupAnswers) :
    Table × Except CErr (String × String × List String) :=
  match coalesce df DATE_CANDIDATES with
  | none =>
      match a.dateAns with
      | none => (df, .error .dateNotFound)
      | some d =>
          if d = "" ∨ d ∉ df.cols then (df, .error .dateNotFound)
          else cg_afterDate df d a
  | some d => cg_afterDate df d a

instance exceptDecEq {e a : Type} [DecidableEq e] [DecidableEq a] :
    DecidableEq (Except e a)
  | .error x, .error y =>
      if h : x = y then isTrue (by rw [h]) else isFalse (fun he => h (Except.error.inj he))
  | .error _, .ok _ => isFalse (fun he => Except.noConfusion he)
  | .ok _, .error _ => isFalse (fun he => Except.noConfusion he)
  | .ok x, .ok y =>
      if h : x = y then isTrue (by rw [h]) else isFalse (fun he => h (Except.ok.inj he))

theorem coalesce_mem (t : Table) (L : List String) (c : String)
    (h : coalesce t L = some c) : c ∈ t.cols :=
  (contains_eq_mem_str _ _).mp (List.find?_some h)

theorem cg_afterDate_no_dateerr (df : Table) (d : String) (a : GroupAnswers) :
    (cg_afterDate df d a).2 ≠ .error .dateNotFound := by
  unfold cg_afterDate
  simp only [cg_decide]
  intro h
  revert h
  repeat' split
  all_goals simp

/-- C8 (amended): only the missing-date-column error precedes every
transformation — when `choose_grouping` fails with it, the caller's table is
returned exactly as passed.  Every other configuration error (missing value
column, invalid grouping choice, unresolvable grouping field, missing
coordinate columns, unknown custom columns) is raised only after the date
column has already been normalized in place: the table handed back is then
`ensure_date` of the input, not the input itself. -/
theorem choose_grouping_eq_some (df : Table) (a : GroupAnswers) (d : String)
    (hc : coalesce df DATE_CANDIDATES = some d) :
    choose_grouping df a = cg_afterDate df d a := by
  unfold choose_grouping
  rw [hc]

theorem choose_grouping_eq_none_none (df : Table) (a : GroupAnswers)
    (hc : coalesce df DATE_CANDIDATES = none) (ha : a.dateAns = none) :
    choose_grouping df a = (df, .error .dateNotFound) := by
  unfold choose_grouping
  rw [hc, ha]

theorem choose_grouping_eq_none_bad (df : Table) (a : GroupAnswers) (d : String)
    (hc : coalesce df DATE_CANDIDATES = none) (ha : a.dateAns = some d)
    (hd : d = "" ∨ d ∉ df.cols) :
    choose_grouping df a = (df, .error .dateNotFound) := by
  unfold choose_grouping
  rw [hc, ha]
  show (if d = "" ∨ d ∉ df.cols then (df, Except.error CErr.dateNotFound)
      else cg_afterDate df d a) = (df, Except.error CErr.dateNotFound)
  rw [if_pos hd]

theorem choose_grouping_eq_none_good (df : Table) (a : GroupAnswers) (d : String)
    (hc : coalesce df DATE_CANDIDATES = none) (ha : a.dateAns = some d)
    (hd : ¬ (d = "" ∨ d ∉ df.cols)) :
    choose_grouping df a = cg_afterDate df d a := by
  unfold choose_grouping
  rw [hc, ha]
  show (if d = "" ∨ d ∉ df.cols then (df, Except.error CErr.dateNotFound)
      else cg_afterDate df d a) = cg_afterDate df d a
  rw [if_neg hd]

theorem c8_config_errors (df : Table) (a : GroupAnswers) :
    ((choose_grouping df a).2 = .error .dateNotFound →
      (choose_grouping df a).1 = df)
    ∧ (∀ e : CErr, (choose_grouping df a).2 = .error e → e ≠ .dateNotFound →
        ∃ d, d ∈ df.cols ∧ (choose_grouping df a).1 = ensure_date df d) := by
  constructor
  · intro he
    cases hc : coalesce df DATE_CANDIDATES with
    | some d =>
        rw [choose_grouping_eq_some df a d hc] at he
        exact absurd he (cg_afterDate_no_dateerr df d a)
    | none =>
        cases ha : a.dateAns with
        | none => rw [choose_grouping_eq_none_none df a hc ha]
        | some d =>
            by_cases hd : d = "" ∨ d ∉ df.cols
            · rw [choose_grouping_eq_none_bad df a d hc ha hd]
            · rw [choose_grouping_eq_none_good df a d hc ha hd] at he
              exact absurd he (cg_afterDate_no_dateerr df d a)
  · intro e he hne
    cases hc : coalesce df DATE_CANDIDATES with
    | some d =>
        rw [choose_grouping_eq_some df a d hc] at he ⊢
        exact ⟨d, coalesce_mem df _ d hc, rfl⟩
    | none =>
        cases ha : a.dateAns with
        | none =>
            rw [choose_grouping_eq_none_none df a hc ha] at he
            exact absurd (Except.error.inj he).symm hne
        | some d =>
            by_cases hd : d = "" ∨ d ∉ df.cols
            · rw [choose_grouping_eq_none_bad df a d hc ha hd] at he
              exact absurd (Except.error.inj he).symm hne
            · rw [choose_grouping_eq_none_good df a d hc ha hd] at he ⊢
              exact ⟨d, not_not.mp (not_or.mp hd).2, rfl⟩

/-- C8 (claim as stated, counterexample): a table with a date column but no
value column.  `choose_grouping` fails with the missing-value-column error,
yet the table it leaves behind is not the one passed in: its date cell has
already been normalized from text to a date. -/
def exT8 : Table :=
  ⟨["Date", "Pollutant Name"], [[Value.str "2025-01-10", Value.str "NO2"]]⟩

theorem c8_claim_counterexample :
    (choose_grouping exT8 ⟨none, none, none, none⟩).2 = .error .valueNotFound
    ∧ (choose_grouping exT8 ⟨none, none, none, none⟩).1 ≠ exT8 := by decide

theorem c8_config_errors_witness :
    (choose_grouping (⟨["X"], [[Value.str "a"]]⟩ : Table)
        ⟨none, none, none, none⟩).1 = (⟨["X"], [[Value.str "a"]]⟩ : Table) :=
  (c8_config_errors (⟨["X"], [[Value.str "a"]]⟩ : Table)
    ⟨none, none, none, none⟩).1 (by decide)

theorem cg_decide_custom (df : Table) (d s : String) (a : GroupAnswers)
    (hAM : "Arithmetic Mean" ∈ df.cols)
    (hask : ask_choice a.choiceAns
      ["state", "city", "county", "site", "cbsa", "coordinates", "custom"]
      = some "custom")
    (hcust : a.customAns = some s) (hs : ¬ s = "") :
    cg_decide df d a =
      (let parts := ((pySplitComma s).map pyStrip).filter
        (fun c => decide (c ≠ ""))
       let missing := parts.filter (fun c => decide (c ∉ df.cols))
       if missing = [] then .ok (d, "Arithmetic Mean", parts)
       else .error (.unknownColumns missing)) := by
  simp only [cg_decide]
  rw [if_pos hAM, hask, hcust]
  dsimp only
  rw [if_neg (by decide : ¬ ("custom" ∈ ["state", "city", "county", "site", "cbsa"])),
    if_neg (by decide : ¬ ("custom" = "coordinates")), if_neg hs]

/-- C9: with the custom grouping choice and an explicit comma-separated list
of column names, the configurator validates that every (trimmed, nonempty)
name exists in the schema.  On failure the raised error carries the full
list of unmatched names — every one of them, in order, not just the first —
and on success that exact list, order preserved, becomes the grouping
columns. -/
theorem c9_custom_columns (df : Table) (a : GroupAnswers) (d s : String)
    (hd : coalesce df DATE_CANDIDATES = some d)
    (hAM : "Arithmetic Mean" ∈ df.cols)
    (hchoice : a.choiceAns = some "custom")
    (hcust : a.customAns = some s) (hs : ¬ s = "") :
    ((((pySplitComma s).map pyStrip).filter (fun c => decide (c ≠ ""))).filter
        (fun c => decide (c ∉ df.cols)) = [] →
      (choose_grouping df a).2 = .ok (d, "Arithmetic Mean",
        ((pySplitComma s).map pyStrip).filter (fun c => decide (c ≠ ""))))
    ∧ ((((pySplitComma s).map pyStrip).filter (fun c => decide (c ≠ ""))).filter
        (fun c => decide (c ∉ df.cols)) ≠ [] →
      (choose_grouping df a).2 = .error (.unknownColumns
        ((((pySplitComma s).map pyStrip).filter (fun c => decide (c ≠ ""))).filter
          (fun c => decide (c ∉ df.cols))))) := by
  have hcolsE : (ensure_date df d).cols = df.cols :=
    setColumnWith_cols_of_mem df d _ (coalesce_mem df _ d hd)
  have hask : ask_choice a.choiceAns
      ["state", "city", "county", "site", "cbsa", "coordinates", "custom"]
      = some "custom" := by
    rw [hchoice]
    decide
  have hAME : "Arithmetic Mean" ∈ (ensure_date df d).cols := by
    rw [hcolsE]
    exact hAM
  have hsnd : (choose_grouping df a).2 = cg_decide (ensure_date df d) d a := by
    rw [choose_grouping_eq_some df a d hd]
    rfl
  have hred := cg_decide_custom (ensure_date df d) d s a hAME hask hcust hs
  rw [hsnd, hred]
  simp only [hcolsE]
  constructor
  · intro hm
    rw [if_pos hm]
  · intro hm
    rw [if_neg hm]

/-- Concrete input used to instantiate the C9 theorem: two of the three
custom names are unknown and both are listed in the error. -/
def exT9 : Table :=
  ⟨["Date", "Arithmetic Mean", "State"],
   [[Value.str "2025-01-10", Value.num 1, Value.str "Md"]]⟩

theorem c9_custom_columns_witness :
    (choose_grouping exT9 ⟨none, none, some "custom", some "State, Foo, Bar"⟩).2
      = .error (.unknownColumns ["Foo", "Bar"]) := by
  have h := (c9_custom_columns exT9
    ⟨none, none, some "custom", some "State, Foo, Bar"⟩ "Date" "State, Foo, Bar"
    (by decide) (by decide) rfl rfl (by decide)).2 (by decide)
  rw [h]
  decide

/-- The pollutant grouping value of a row (the `columns="Pollutant Name"`
grouper): `none` when the cell is missing — such rows are dropped by the
groupby underlying `pivot_table`, like rows with a missing index key. -/
def polOf (t : Table) (r : List Value) : Option String :=
  match getCellRow t r "Pollutant Name" with
  | .na => none
  | v => some (pyStr v)

/-- The numeric value of the value column in a row, if any. -/
def rowNum? (t : Table) (valCol : String) (r : List Value) : Option ℚ :=
  asNum? (getCellRow t r valCol)

/-- The numeric values contributing to the cell of index key `k` and
pollutant `p`: values of rows sharing that combination, missing values
excluded (`mean` skips NaN). -/
def comboNums (t : Table) (ics : List String) (valCol : String)
    (k : List Value) (p : String) : List ℚ :=
  (t.rows.filter
    (fun r => decide (rowKey? t ics r = some k ∧ polOf t r = some p))).filterMap
    (fun r => rowNum? t valCol r)

/-- Aggregated cell: the arithmetic mean, or missing when no value
contributes — never zero. -/
def meanCell (vals : List ℚ) : Value :=
  if vals = [] then .na else .num (vals.sum / (vals.length : ℚ))

/-- Index keys surviving `pivot_table`: keys of rows with a non-missing
pollutant and a numeric value (all-NaN aggregation rows are dropped before
the unstack). -/
def pivotKeys (t : Table) (ics : List String) (valCol : String) :
    List (List Value) :=
  (t.rows.filterMap (fun r =>
    if (polOf t r).isSome ∧ (rowNum? t valCol r).isSome
    then rowKey? t ics r else none)).dedup

/-- Pollutant columns surviving `pivot_table` (its `dropna=True` drops
columns whose entries are all NaN): pollutants with at least one numeric
value under a non-missing index key.  First-appearance order; pandas sorts,
which affects only presentation order and no property below. -/
def pivotPols (t : Table) (ics : List String) (valCol : String) : List String :=
  (t.rows.filterMap (fun r =>
    if (rowKey? t ics r).isSome ∧ (rowNum? t valCol r).isSome
    then polOf t r else none)).dedup

/-- Models `df.pivot_table(index=ics, columns="Pollutant Name",
values=valCol, aggfunc="mean").reset_index()`: one row per surviving index
key — the key values followed by the per-pollutant mean cells — with the
index columns first in the schema. -/
def pivot_table (t : Table) (ics : List String) (valCol : String) : Table :=
  let keys := pivotKeys t ics valCol
  let pols := pivotPols t ics valCol
  ⟨ics ++ pols,
   keys.map (fun k =>
     k ++ pols.map (fun p => meanCell (comboNums t ics valCol k p)))⟩

/-- Lines 382–384 of the source: coerce and round the value column, then
pivot over the grouping columns plus the date column. -/
def build_wide (t : Table) (group_cols : List String)
    (date_col val_col : String) : Table :=
  let tc := setColumnWith t val_col
    (fun r => round3 (to_numeric (getCellRow t r val_col)))
  pivot_table tc (group_cols ++ [date_col]) val_col

/-- Read the wide table at index key `k` (the first `n` cells of a row) and
column `p`. -/
def wideCell (w : Table) (n : ℕ) (k : List Value) (p : String) : Value :=
  match w.rows.find? (fun r => decide (r.take n = k)) with
  | some r => getCellRow w r p
  | none => .na

/-- The cell value as the specification words it: the arithmetic mean of the
value column over the input rows sharing the (index key, pollutant)
combination — with missing values excluded from the aggregation — and a
missing value, never zero, when no value contributes. -/
def meanSpec (t : Table) (ics : List String) (valCol : String)
    (k : List Value) (p : String) : Value :=
  meanCell (comboNums t ics valCol k p)

theorem pivotKeys_length (t : Table) (ics : List String) (vc : String) :
    ∀ k ∈ pivotKeys t ics vc, k.length = ics.length := by
  intro k hk
  simp only [pivotKeys, List.mem_dedup, List.mem_filterMap] at hk
  obtain ⟨r, _, hik⟩ := hk
  by_cases hc : (polOf t r).isSome ∧ (rowNum? t vc r).isSome
  · rw [if_pos hc] at hik
    simp only [rowKey?] at hik
    by_cases hna : Value.na ∈ ics.map (getCellRow t r)
    · rw [if_pos hna] at hik
      exact Option.noConfusion hik
    · rw [if_neg hna] at hik
      cases hik
      simp
  · rw [if_neg hc] at hik
    exact Option.noConfusion hik

theorem find?_take_map (n : ℕ) (k : List Value)
    (f : List Value → List Value) :
    ∀ keys : List (List Value), k ∈ keys →
      (∀ k' ∈ keys, (f k').take n = k') →
      (keys.map f).find? (fun r => decide (r.take n = k)) = some (f k) := by
  intro keys
  induction keys with
  | nil => intro h _; cases h
  | cons k0 ks ih =>
      intro hk hall
      have h0 : (f k0).take n = k0 := hall k0 (List.mem_cons_self _ _)
      by_cases he : k0 = k
      · subst he
        have htrue : decide ((f k0).take n = k0) = true := by
          rw [h0]; simp
        simp [List.map_cons, List.find?_cons, htrue]
      · have hfalse : decide ((f k0).take n = k) = false := by
          rw [h0]; simpa using he
        rw [List.map_cons]
        have hstep : ((f k0) :: ks.map f).find?
            (fun r => decide (r.take n = k))
            = (ks.map f).find? (fun r => decide (r.take n = k)) := by
          simp [List.find?_cons, hfalse]
        rw [hstep]
        have hk' : k ∈ ks := by
          rcases List.mem_cons.mp hk with h' | h'
          · exact absurd h'.symm he
          · exact h'
        exact ih hk' (fun k' h => hall k' (List.mem_cons_of_mem _ h))

theorem colIdxAux_append_right (A B : List String) (c : String) (hA : c ∉ A) :
    colIdxAux (A ++ B) c = (colIdxAux B c).map (fun j => A.length + j) := by
  induction A with
  | nil =>
      simp only [List.nil_append, List.length_nil]
      cases colIdxAux B c <;> simp
  | cons a A ih =>
      have ha : a ≠ c := fun h => hA (h ▸ List.mem_cons_self _ _)
      have hA' : c ∉ A := fun h => hA (List.mem_cons_of_mem _ h)
      rw [List.cons_append, colIdxAux, if_neg ha, ih hA']
      cases colIdxAux B c with
      | none => rfl
      | some j =>
          simp only [Option.map_some', List.length_cons]
          congr 1
          omega

/-- C3 (amended): in the wide pivot, the cell of every surviving index key
and pollutant column equals the arithmetic mean of the value column over the
input rows sharing that (index key, pollutant) combination, missing values
excluded from the aggregation; a combination with no contributing value
yields a missing cell, never zero.  (A pollutant all of whose values are
missing gets no column at all — see the counterexample — hence the
restriction to surviving columns.) -/
theorem c3_pivot_mean (t : Table) (ics : List String) (vc : String)
    (k : List Value) (p : String)
    (hk : k ∈ pivotKeys t ics vc) (hp : p ∈ pivotPols t ics vc)
    (hpi : p ∉ ics) :
    wideCell (pivot_table t ics vc) ics.length k p = meanSpec t ics vc k p
    ∧ (comboNums t ics vc k p = [] →
        wideCell (pivot_table t ics vc) ics.length k p = Value.na) := by
  have hwcols : (pivot_table t ics vc).cols = ics ++ pivotPols t ics vc := rfl
  have hwrows : (pivot_table t ics vc).rows
      = (pivotKeys t ics vc).map (fun w =>
          w ++ (pivotPols t ics vc).map
            (fun q => meanCell (comboNums t ics vc w q))) := rfl
  have hfind := find?_take_map ics.length k
    (fun w => w ++ (pivotPols t ics vc).map
      (fun q => meanCell (comboNums t ics vc w q)))
    (pivotKeys t ics vc) hk
    (fun w hw => by
      rw [← pivotKeys_length t ics vc w hw, List.take_left])
  have hw : wideCell (pivot_table t ics vc) ics.length k p
      = getCellRow (pivot_table t ics vc)
          (k ++ (pivotPols t ics vc).map
            (fun q => meanCell (comboNums t ics vc k q))) p := by
    unfold wideCell
    rw [hwrows, hfind]
  have hmain : wideCell (pivot_table t ics vc) ics.length k p
      = meanSpec t ics vc k p := by
    rw [hw]
    obtain ⟨j, hj⟩ := colIdxAux_some_of_mem (pivotPols t ics vc) p hp
    have hidx : colIdx? (pivot_table t ics vc) p = some (ics.length + j) := by
      unfold colIdx?
      rw [hwcols, colIdxAux_append_right ics _ p hpi, hj]
      rfl
    rw [getCellRow_eq_getD _ _ _ _ hidx]
    have hklen : k.length = ics.length := pivotKeys_length t ics vc k hk
    rw [List.getD_append_right _ _ _ _ (by rw [hklen]; omega)]
    have harith : ics.length + j - k.length = j := by rw [hklen]; omega
    rw [harith,
      getD_map_lt _ _ _ _ "" (colIdxAux_lt_length _ _ _ hj),
      colIdxAux_getD _ _ _ hj]
    rfl
  refine ⟨hmain, fun hempty => ?_⟩
  rw [hmain]
  unfold meanSpec meanCell
  rw [if_pos hempty]

/-- C3 (claim as stated, counterexample): the pollutant `"PM"` is present in
the input, but its only value is missing, so `pivot_table` (whose default
`dropna=True` drops all-NaN columns) emits no `"PM"` column at all — the
claim's "one column per distinct pollutant present" fails. -/
def exC3b : Table :=
  ⟨["Pollutant Name", "Arithmetic Mean", "Date", "State"],
   [[Value.str "NO2", Value.num 1, Value.date "2025-01-10", Value.str "Md"],
    [Value.str "PM", Value.na, Value.date "2025-01-10", Value.str "Md"]]⟩

theorem c3_claim_counterexample :
    (∃ r ∈ exC3b.rows, getCellRow exC3b r "Pollutant Name" = Value.str "PM")
    ∧ "PM" ∉ (build_wide exC3b ["State"] "Date" "Arithmetic Mean").cols := by
  decide

/-- Concrete instance of the C3 theorem — the specification's duplicate-NO2
example: values 15.2 and 16.0 for the same (Maryland, 2025-01-10, NO2)
combination pivot to their mean 15.6 (= 78/5). -/
def exC3 : Table :=
  ⟨["Pollutant Name", "Arithmetic Mean", "Date", "State"],
   [[Value.str "NO2", Value.num (76/5), Value.date "2025-01-10", Value.str "Maryland"],
    [Value.str "PM2.5", Value.num (981/100), Value.date "2025-01-10", Value.str "Maryland"],
    [Value.str "NO2", Value.num 16, Value.date "2025-01-10", Value.str "Maryland"]]⟩

theorem c3_pivot_mean_witness :
    wideCell (pivot_table exC3 ["State", "Date"] "Arithmetic Mean") 2
      [Value.str "Maryland", Value.date "2025-01-10"] "NO2"
      = Value.num (78/5) := by
  have h := (c3_pivot_mean exC3 ["State", "Date"] "Arithmetic Mean"
    [Value.str "Maryland", Value.date "2025-01-10"] "NO2"
    (by decide) (by decide) (by decide)).1
  have h2 : (["State", "Date"] : List String).length = 2 := rfl
  rw [h2] at h
  rw [h]
  decide
